import Mathlib

/-!
# Verification of the SMT counterexample-model decoder

Shallow embedding of `src/model.ts` (class `Model` and its helpers) from the
`workersio/ts-verify` repository, together with theorems settling the frozen
claims about it.  The embedding follows the TypeScript source function by
function; JavaScript numbers are modelled as exact rationals (`Rat`), with
`NaN` represented by `Option.none` where the source can produce it
(`parseInt` results), and JavaScript runtime exceptions (`TypeError`,
`RangeError`) as explicit error constructors.
-/

namespace TsVerify

/-- Symbolic expressions: atoms and ordered lists (`SExpr` of `util.ts`). -/
inductive SExpr where
  | atom (s : String)
  | list (es : List SExpr)

/-- Tokens of the s-expression reader. -/
inductive Tok where
  | lp
  | rp
  | atomT (s : String)

/-- Modelled from the spec: the tokenizer of the external symbolic-expression
parser (`parseSExpr` in `util.ts`, which is not part of `src/`): parentheses,
whitespace-separated atoms, and double-quoted literals kept as single atoms
including their quotes.  Fuel-driven; one character is consumed per step, so
`cs.length + 1` fuel is always enough. -/
def tokenizeAux : Nat → List Char → List Tok
  | 0, _ => []
  | _, [] => []
  | f + 1, c :: cs =>
    if c = '(' then .lp :: tokenizeAux f cs
    else if c = ')' then .rp :: tokenizeAux f cs
    else if c.isWhitespace then tokenizeAux f cs
    else if c = '"' then
      let quoted := cs.takeWhile (· ≠ '"')
      let rest := cs.drop (quoted.length + 1)
      .atomT ("\"" ++ String.mk quoted ++ "\"") :: tokenizeAux f rest
    else
      let tl := cs.takeWhile (fun d => ¬ d.isWhitespace ∧ d ≠ '(' ∧ d ≠ ')' ∧ d ≠ '"')
      .atomT (String.mk (c :: tl)) :: tokenizeAux f (cs.drop tl.length)

def tokenize (s : String) : List Tok :=
  tokenizeAux (s.length + 1) s.data

mutual
/-- Modelled from the spec: recursive-descent reading of one expression from a
token stream (external `parseSExpr`, `util.ts`). -/
def parseToks : Nat → List Tok → Except String (SExpr × List Tok)
  | 0, _ => .error "out of fuel"
  | _ + 1, [] => .error "unexpected end of input"
  | _ + 1, .rp :: _ => .error "unexpected )"
  | _ + 1, .atomT s :: rest => .ok (.atom s, rest)
  | f + 1, .lp :: rest => parseListToks f rest []

/-- Modelled from the spec: reading the elements of a parenthesized list. -/
def parseListToks : Nat → List Tok → List SExpr → Except String (SExpr × List Tok)
  | 0, _, _ => .error "out of fuel"
  | _ + 1, [], _ => .error "unexpected end of input"
  | _ + 1, .rp :: rest, acc => .ok (.list acc.reverse, rest)
  | f + 1, toks, acc => do
    let (e, rest) ← parseToks f toks
    parseListToks f rest (e :: acc)
end

/-- Modelled from the spec: the external symbolic-expression parser consumed by
the decoder (`parseSExpr` of `util.ts`; the spec describes it as an assumed
external tokenizer/parser turning solver text into an atom/list tree). -/
def parseSExpr (s : String) : Except String SExpr :=
  let toks := tokenize s
  match parseToks (2 * toks.length + 4) toks with
  | .error e => .error e
  | .ok (e, []) => .ok e
  | .ok (_, _ :: _) => .error "unexpected trailing input"

/-- JavaScript `Array.prototype.toString` / template-literal rendering of a
nested array: elements joined by commas, nested arrays flattened. -/
def SExpr.jsToString : SExpr → String
  | .atom s => s
  | .list es => String.intercalate "," (es.attach.map (fun x => jsToString x.1))
decreasing_by
  simp only [SExpr.list.sizeOf_spec]
  have h := List.sizeOf_lt_of_mem x.2
  omega

/-- `String.startsWith`, stated over the character lists so that it reduces
definitionally. -/
def strStartsWith (s pre : String) : Bool :=
  pre.data.isPrefixOf s.data

/-- `String.endsWith`, stated over the character lists. -/
def strEndsWith (s suf : String) : Bool :=
  suf.data.reverse.isPrefixOf s.data.reverse

/-- `String.prototype.trim`: strip whitespace from both ends. -/
def strTrim (s : String) : String :=
  String.mk (((s.data.dropWhile Char.isWhitespace).reverse.dropWhile Char.isWhitespace).reverse)

/-- Numeric value of a character as a digit in the given radix, as accepted by
JavaScript `parseInt`. -/
def digitVal? (radix : Nat) (c : Char) : Option Nat :=
  let v :=
    if '0' ≤ c ∧ c ≤ '9' then some (c.toNat - '0'.toNat)
    else if 'a' ≤ c ∧ c ≤ 'z' then some (c.toNat - 'a'.toNat + 10)
    else if 'A' ≤ c ∧ c ≤ 'Z' then some (c.toNat - 'A'.toNat + 10)
    else none
  v.bind fun n => if n < radix then some n else none

/-- Longest valid-digit prefix read as a number; `none` when the prefix is
empty (JavaScript `parseInt` yielding `NaN`). -/
def readDigits (radix : Nat) : List Char → Option Nat → Option Nat
  | [], acc => acc
  | c :: cs, acc =>
    match digitVal? radix c with
    | none => acc
    | some d => readDigits radix cs (some ((acc.getD 0) * radix + d))

/-- JavaScript `parseInt(s, radix)`: skip whitespace, optional sign, then the
longest valid-digit prefix; `none` models `NaN`. -/
def jsParseInt (radix : Nat) (s : String) : Option Int :=
  let cs := s.data.dropWhile Char.isWhitespace
  match cs with
  | '-' :: rest => (readDigits radix rest none).map (fun n => -(n : Int))
  | '+' :: rest => (readDigits radix rest none).map (fun n => (n : Int))
  | _ => (readDigits radix cs none).map (fun n => (n : Int))

/-- Fraction digits of a decimal literal accumulated into a rational. -/
def readFracDigits : List Char → Rat → Rat → Rat
  | [], acc, _ => acc
  | c :: cs, acc, scale =>
    match digitVal? 10 c with
    | none => acc
    | some d => readFracDigits cs (acc + (d : Rat) * scale / 10) (scale / 10)

/-- JavaScript `parseFloat`: skip whitespace, optional sign, longest decimal
form `digits [. digits]` of greatest length; `none` models `NaN`.  Exponent
forms and `Infinity` are not produced by the solver outputs this decoder
consumes and are not modelled. -/
def jsParseFloat (s : String) : Option Rat :=
  let cs := s.data.dropWhile Char.isWhitespace
  let core : List Char → Option Rat := fun cs =>
    let intPart := cs.takeWhile (fun c => '0' ≤ c ∧ c ≤ '9')
    let rest := cs.drop intPart.length
    let frac : List Char :=
      match rest with
      | '.' :: fs => fs.takeWhile (fun c => '0' ≤ c ∧ c ≤ '9')
      | _ => []
    if intPart.isEmpty ∧ frac.isEmpty then none
    else
      let ip : Rat := ((readDigits 10 intPart (some 0)).getD 0 : Nat)
      some (readFracDigits frac ip (1 : Rat))
  match cs with
  | '-' :: rest => (core rest).map (fun q => -q)
  | '+' :: rest => core rest
  | _ => core cs

/-- JavaScript `String.fromCharCode` on a possibly-`NaN` number: `NaN` maps to
code 0, otherwise the code is taken modulo 2^16. -/
def fromCharCode : Option Int → Char
  | none => Char.ofNat 0
  | some n => Char.ofNat ((n % 65536).toNat)

/-- Primitive literal values occurring in generated source expressions
(`Literal` nodes of `javascript.ts`). -/
inductive Lit where
  | num (v : Rat)
  | bool (v : Bool)
  | str (v : String)
  | null
  | undefined

mutual
/-- Source-level expressions (the expression nodes of `javascript.ts`),
restricted to the constructors the model decoder produces; source locations
(`nullLoc()` everywhere in the decoder) are omitted. -/
inductive Expr where
  | literal (v : Lit)
  | ident (name : String)
  | binary (op : String) (l r : Expr)
  | logical (op : String) (l r : Expr)
  | objectE (props : List (String × Expr))
  | newE (callee : String) (args : List Expr)
  | arrayE (elems : List Expr)
  | funE (f : FunExpr)

/-- Source-level statements produced by the decoder. -/
inductive Stmt where
  | ifS (test : Expr) (conseq : Stmt) (alt : Stmt)
  | retS (arg : Expr)
  | block (body : List Stmt)

/-- A `FunctionExpression`: parameter names and a block body (the decoder
always produces empty `requires`/`ensures`/`freeVars`, omitted here). -/
inductive FunExpr where
  | mk (params : List String) (body : List Stmt)
end

/-- Concrete JavaScript values (`JSVal` of `model.ts`): the closed tagged
union accepted by the renderers. -/
inductive JSVal where
  | num (v : Rat)
  | bool (v : Bool)
  | str (v : String)
  | null
  | undefined
  | fn (body : FunExpr)
  | obj (v : List (String × JSVal))
  | objCls (cls : String) (args : List JSVal)
  | arr (elems : List JSVal)

/-- Lazy values (`LazyValue` of `model.ts`): scalars, inline objects (whose
fields are already concrete), pending class instances, and the three
reference kinds. -/
inductive LazyValue where
  | num (v : Rat)
  | bool (v : Bool)
  | str (v : String)
  | null
  | undefined
  | obj (v : List (String × JSVal))
  | objCls (cls : String) (args : List LazyValue)
  | arrRef (name : String)
  | objRef (name : String)
  | funRef (name : String)

/-- An array reference (`ArrRef` of `model.ts`). -/
structure ArrRef where
  name : String

/-- An object reference (`ObjRef` of `model.ts`). -/
structure ObjRef where
  name : String

/-- A heap location (`Loc` of `model.ts`). -/
structure Loc where
  name : String

/-- One branch of a reconstructed function table: per-argument equality
conditions and the lazy result (`LazyFun` body entries of `model.ts`). -/
structure FunBranch where
  cond : List JSVal
  ret : LazyValue

/-- A reconstructed function for one arity (`LazyFun` of `model.ts`). -/
structure LazyFun where
  body : List FunBranch

/-- A free-variable query (`FreeVar` of `logic.ts`): either a plain name or a
(location name, heap generation) pair. -/
inductive FreeVar where
  | strV (name : String)
  | locV (name : String) (heap : Int)

/-- The options singleton (`options.ts`): only `filename` is read by the
decoder, for stamping error locations; the default is the empty string. -/
structure Options where
  filename : String

def defaultOptions : Options := ⟨""⟩

def getOptions : Options := defaultOptions

/-- The structured error payload thrown by the decoder (`MessageException`
carrying the `unrecognized-model` message of `model.ts`). -/
structure MessageException where
  status : String
  errType : String
  file : String
  description : String
deriving DecidableEq

/-- Errors a decoding/hydration step can raise: a thrown `MessageException`,
or one of the JavaScript runtime errors the source can run into
(`RangeError` on an invalid array length, `TypeError` on dereferencing
`undefined` or reducing an empty array), plus fuel exhaustion standing for
the unguarded recursion on cyclic models (spec §9). -/
inductive DecodeError where
  | message (e : MessageException)
  | rangeError
  | typeError
  | outOfFuel
deriving DecidableEq

/-- `Model.modelError`: builds the single structured "unrecognized model"
failure, embedding the offending text and the configured file name. -/
def modelError (smt : String) : DecodeError :=
  .message ⟨"error", "unrecognized-model", getOptions.filename, "cannot parse smt " ++ smt⟩

/-- JSON string escaping as performed by `JSON.stringify` on the strings the
decoder embeds in error messages. -/
def jsonEscape (s : String) : String :=
  String.mk (s.data.flatMap (fun c => if c = '"' ∨ c = '\\' then ['\\', c] else [c]))

/-- `JSON.stringify` of a parsed s-expression (nested arrays of strings). -/
def jsonOfSExpr : SExpr → String
  | .atom s => "\"" ++ jsonEscape s ++ "\""
  | .list es =>
    "[" ++ String.intercalate "," (es.attach.map (fun x => jsonOfSExpr x.1)) ++ "]"
decreasing_by
  simp only [SExpr.list.sizeOf_spec]
  have h := List.sizeOf_lt_of_mem x.2
  omega

/-- `Model.parseNum`: numeric literals (decimal via `parseFloat`, `#x` hex,
`#b` binary) and the arithmetic forms.  Rationals stand in for doubles;
division is exact (division by zero yields 0 where JavaScript would give
Infinity, a case no claim touches). -/
def parseNum : SExpr → Except DecodeError Rat
  | .atom v =>
    match jsParseFloat v with
    | some q => .ok q
    | none =>
      match (if strStartsWith v "#x" then jsParseInt 16 (v.drop 2) else none) with
      | some n => .ok (n : Rat)
      | none =>
        match (if strStartsWith v "#b" then jsParseInt 2 (v.drop 2) else none) with
        | some n => .ok (n : Rat)
        | none => .error (modelError ("cannot parse number " ++ v))
  | .list [] => .error (modelError ("cannot parse number " ++ SExpr.jsToString (.list [])))
  | .list (op :: args) =>
    match op, args with
    | .atom "-", [x] => do
      let n ← parseNum x
      .ok (-n)
    | .atom "/", [x, y] => do
      let n ← parseNum x
      let d ← parseNum y
      .ok (n / d)
    | .atom "*", [x, y] => do
      let l ← parseNum x
      let r ← parseNum y
      .ok (l * r)
    | .atom "+", [x, y] => do
      let l ← parseNum x
      let r ← parseNum y
      .ok (l + r)
    | .atom "to_real", [x] => do
      let n ← parseNum x
      .ok n
    | .atom "to_int", [x] => do
      let n ← parseNum x
      .ok ((n.floor : Int) : Rat)
    | _, _ =>
      .error (modelError ("cannot parse number expression " ++ jsonOfSExpr (.list (op :: args))))

/-- Hex value of a pair of decimal-digit characters, as read by the escape
translation's `parseInt(c, 16)`. -/
def hexPairVal (d1 d2 : Char) : Nat :=
  (d1.toNat - '0'.toNat) * 16 + (d2.toNat - '0'.toNat)

/-- The `\xNN` escape translation of `Model.parseStringValue`: the global
regex `/\\x(\d\d)/g` replaces a backslash, `x` and two decimal digits by the
character whose code is the pair read as hexadecimal; any other sequence is
copied verbatim. -/
def xlateEscapes : List Char → List Char
  | '\\' :: 'x' :: d1 :: d2 :: rest =>
    if ('0' ≤ d1 ∧ d1 ≤ '9') ∧ ('0' ≤ d2 ∧ d2 ≤ '9') then
      fromCharCode (some (hexPairVal d1 d2 : Int)) :: xlateEscapes rest
    else '\\' :: xlateEscapes ('x' :: d1 :: d2 :: rest)
  | c :: rest => c :: xlateEscapes rest
  | [] => []

/-- `Model.parseCharCode`: a decimal atom, or a `(char #xNN)`/`(char #bNN)`
form.  The outer `none` models the JavaScript `null` return; the inner
`Option Int` models a number that may be `NaN`. -/
def parseCharCode : SExpr → Option (Option Int)
  | .atom v =>
    match jsParseInt 10 v with
    | some n => some (some n)
    | none => none
  | .list [.atom "char", .atom charLit] =>
    if strStartsWith charLit "#x" then some (jsParseInt 16 (charLit.drop 2))
    else if strStartsWith charLit "#b" then some (jsParseInt 2 (charLit.drop 2))
    else none
  | _ => none

mutual
/-- `Model.parseStringValue`: quoted literals with escape translation,
`str.++` concatenation, `seq.unit`/`str.from_code` single characters;
`str.at` and every unrecognized form decode to the soft `none`. -/
def parseStringValue : SExpr → Option String
  | .atom v =>
    if strStartsWith v "\"" ∧ strEndsWith v "\"" then
      some (String.mk (xlateEscapes ((v.drop 1).dropRight 1).data))
    else if v = "\"\"" then some ""
    else none
  | .list [] => none
  | .list (op :: args) =>
    match op, args with
    | .atom "str.++", _ => parseStringParts args
    | .atom "seq.unit", [c] =>
      match parseCharCode c with
      | none => none
      | some code => some (String.singleton (fromCharCode code))
    | .atom "str.from_code", [c] =>
      match parseCharCode c with
      | none => none
      | some code => some (String.singleton (fromCharCode code))
    | _, _ => none

/-- The `str.++` loop of `parseStringValue`: every part must decode, and the
results are concatenated in order. -/
def parseStringParts : List SExpr → Option String
  | [] => some ""
  | e :: rest => do
    let p ← parseStringValue e
    let r ← parseStringParts rest
    pure (p ++ r)
end

/-- `Model.tryParseSimpleValue`: scalar forms only; `none` signals an
unparseable (non-scalar) value.  The `jsint`/`jsreal` case calls `parseNum`
unguarded, so a malformed numeric payload raises the structured error rather
than returning `none`. -/
def tryParseSimpleValue : SExpr → Except DecodeError (Option JSVal)
  | .atom s =>
    if s = "jsundefined" then .ok (some .undefined)
    else if s = "jsnull" then .ok (some .null)
    else .ok none
  | .list [] => .ok none
  | .list (tag :: rest) =>
    match tag with
    | .list _ => .ok none
    | .atom t =>
      if t = "jsbool" then
        match rest with
        | [.atom v] => .ok (some (.bool (v = "true")))
        | _ => .ok none
      else if t = "jsint" ∨ t = "jsreal" then
        match rest with
        | [v] => do
          let n ← parseNum v
          .ok (some (.num n))
        | _ => .ok none
      else if t = "jsstr" then
        match rest with
        | [v] =>
          match parseStringValue v with
          | none => .ok none
          | some sv => .ok (some (.str sv))
        | _ => .ok none
      else .ok none

mutual
/-- `Model.parseLazyValue`: atoms (`jsundefined`, `jsnull`, `jsobj_`-prefixed
class names, `Arr!`-prefixed array references) and tagged lists; unknown
shapes raise the structured error. -/
def parseLazyValue : SExpr → Except DecodeError LazyValue
  | .atom s =>
    if s = "jsundefined" then .ok .undefined
    else if s = "jsnull" then .ok .null
    else if strStartsWith s "jsobj_" then .ok (.objCls (s.drop 6) [])
    else if strStartsWith s "Arr!" then .ok (.arrRef s)
    else .error (modelError s)
  | .list [] => .error (modelError (SExpr.jsToString (.list [])))
  | .list (tag :: rest) =>
    match tag with
    | .list ts => .error (modelError (SExpr.jsToString (.list ts)))
    | .atom t =>
      if t = "jsbool" then
        match rest with
        | [.atom v] => .ok (.bool (v = "true"))
        | _ => .error (modelError (SExpr.jsToString (.list (tag :: rest))))
      else if t = "jsint" ∨ t = "jsreal" then
        match rest with
        | [v] => do
          let n ← parseNum v
          .ok (.num n)
        | _ => .error (modelError (SExpr.jsToString (.list (tag :: rest))))
      else if t = "jsstr" then
        match rest with
        | [v] =>
          match parseStringValue v with
          | none => .error (modelError "cannot parse string value")
          | some sv => .ok (.str sv)
        | _ => .error (modelError (SExpr.jsToString (.list (tag :: rest))))
      else if t = "jsfun" then
        match rest with
        | [.atom v] => .ok (.funRef v)
        | _ => .error (modelError (SExpr.jsToString (.list (tag :: rest))))
      else if t = "jsobj" then
        match rest with
        | [.atom v] => .ok (.objRef v)
        | _ => .error (modelError (SExpr.jsToString (.list (tag :: rest))))
      else if t = "jsobj_Array" then
        match rest with
        | [.atom v] => .ok (.arrRef v)
        | _ => .error (modelError (SExpr.jsToString (.list (tag :: rest))))
      else if strStartsWith t "jsobj_" then do
        let args ← parseLazyValueList rest
        .ok (.objCls (t.drop 6) args)
      else .error (modelError t)

/-- The argument loop of the `jsobj_<ClassName>` case of `parseLazyValue`. -/
def parseLazyValueList : List SExpr → Except DecodeError (List LazyValue)
  | [] => .ok []
  | e :: rest => do
    let v ← parseLazyValue e
    let vs ← parseLazyValueList rest
    .ok (v :: vs)
end

mutual
/-- `valueToJavaScript`: renders a concrete value as a source-level expression tree. -/
def valueToJavaScript : JSVal → Expr
  | .num v => .literal (.num v)
  | .bool v => .literal (.bool v)
  | .str v => .literal (.str v)
  | .null => .literal .null
  | .undefined => .literal .undefined
  | .fn body => .funE body
  | .obj v => .objectE (valueToJavaScriptProps v)
  | .objCls cls args => .newE cls (valueToJavaScriptList args)
  | .arr elems => .arrayE (valueToJavaScriptList elems)

/-- Element-wise rendering for array elements and constructor arguments. -/
def valueToJavaScriptList : List JSVal → List Expr
  | [] => []
  | v :: rest => valueToJavaScript v :: valueToJavaScriptList rest

/-- Key-preserving rendering for object properties. -/
def valueToJavaScriptProps : List (String × JSVal) → List (String × Expr)
  | [] => []
  | (k, v) :: rest => (k, valueToJavaScript v) :: valueToJavaScriptProps rest
end

/-- Insertion-ordered association lists standing in for JavaScript object /
sparse-array property maps. -/
def AList (α β : Type) : Type := List (α × β)

/-- Property read: first (and only) entry with the given key. -/
def lookupA [DecidableEq α] : AList α β → α → Option β
  | [], _ => none
  | (k', v) :: rest, k => if k' = k then some v else lookupA rest k

/-- Property write: overwrite in place, or append a new key at the end
(JavaScript property-insertion order). -/
def setA [DecidableEq α] : AList α β → α → β → AList α β
  | [], k, v => [(k, v)]
  | (k', v') :: rest, k, v =>
    if k' = k then (k, v) :: rest else (k', v') :: setA rest k v

/-- JavaScript `Set` construction from a list: deduplicate keeping the first
occurrence, preserving insertion order. -/
def dedupFirst : List String → List String
  | [] => []
  | s :: rest => s :: (dedupFirst rest).filter (· ≠ s)

/-- The decoded model under construction: the private fields of class
`Model`.  The four global tables are closures, as in the source; heap
generation indices and function arities are `Option Int` because the source
obtains them from `parseInt` and an unparseable index becomes the `NaN`
property key. -/
structure ModelState where
  arrLengths : Option (ArrRef → Option Int)
  arrElems : Option (ArrRef → Int → LazyValue)
  objProperties : Option (ObjRef → String)
  objPropertyMappings : AList String (List String)
  objFields : Option (ObjRef → String → LazyValue)
  heapMappings : AList String (Loc → LazyValue)
  vars : AList String LazyValue
  locs : AList String Loc
  heaps : AList (Option Int) String
  funs : AList String (AList (Option Int) LazyFun)
  funDefaults : AList (Option Int) LazyValue

/-- The freshly constructed, empty model. -/
def initState : ModelState :=
  { arrLengths := none, arrElems := none, objProperties := none
    objPropertyMappings := [], objFields := none, heapMappings := []
    vars := [], locs := [], heaps := [], funs := [], funDefaults := [] }

/-- `Model.parseHeap`: the body must be an `(_ as-array name)` alias. -/
def parseHeap : SExpr → Except DecodeError String
  | .list [.atom "_", .atom "as-array", .atom name] => .ok name
  | _ => .error (modelError "expected (_ as-array $name)")

/-- `Model.parseHeapMapping`: one-key conditional chain over locations with a
lazy-value leaf. -/
def parseHeapMapping : SExpr → Except DecodeError (Loc → LazyValue)
  | .list [.atom "ite", .list [.atom "=", .atom "x!0", .atom loc], thenE, elsE] => do
    let thenM ← parseHeapMapping thenE
    let elsM ← parseHeapMapping elsE
    .ok (fun l => if l.name = loc then thenM l else elsM l)
  | smt => do
    let val ← parseLazyValue smt
    .ok (fun _ => val)

/-- `Model.parseArrayLengths`: one-key conditional chain over array
references; the leaf is `parseInt` of an atom (`none` models `NaN`). -/
def parseArrayLengths : SExpr → Except DecodeError (ArrRef → Option Int)
  | .list [.atom "ite", .list [.atom "=", .atom "x!0", .atom arr], thenE, elsE] => do
    let thenM ← parseArrayLengths thenE
    let elsM ← parseArrayLengths elsE
    .ok (fun r => if r.name = arr then thenM r else elsM r)
  | .atom s => .ok (fun _ => jsParseInt 10 s)
  | _ => .error (modelError "expected num")

/-- `Model.parseArrayElems`: two-key conditional chain over array reference
and index, with a lazy-value leaf. -/
def parseArrayElems : SExpr → Except DecodeError (ArrRef → Int → LazyValue)
  | .list [.atom "ite",
      .list [.atom "and",
        .list [.atom "=", .atom "x!0", .atom arr],
        .list [.atom "=", .atom "x!1", .atom i]],
      thenE, elsE] => do
    let thenM ← parseArrayElems thenE
    let elsM ← parseArrayElems elsE
    let iVal := jsParseInt 10 i
    .ok (fun r idx => if r.name = arr ∧ some idx = iVal then thenM r idx else elsM r idx)
  | smt => do
    let val ← parseLazyValue smt
    .ok (fun _ _ => val)

/-- `Model.parseObjectProperties`: one-key conditional chain over object
references; the leaf is an `(_ as-array name)` alias. -/
def parseObjectProperties : SExpr → Except DecodeError (ObjRef → String)
  | .list [.atom "ite", .list [.atom "=", .atom "x!0", .atom obj], thenE, elsE] => do
    let thenM ← parseObjectProperties thenE
    let elsM ← parseObjectProperties elsE
    .ok (fun r => if r.name = obj then thenM r else elsM r)
  | smt =>
    match smt with
    | .list [.atom "_", .atom "as-array", .atom name] => .ok (fun _ => name)
    | _ => .error (modelError "expected (_ as-array $name)")

/-- Key decoding shared by the property-mapping and object-field chains: a
quoted atom has its quotes stripped; any other atom is rejected; a non-atom
is handed to the soft string parser. -/
def parsePropKey : SExpr → Option String
  | .atom p =>
    if p.length ≥ 2 ∧ strStartsWith p "\"" ∧ strEndsWith p "\"" then
      some ((p.drop 1).dropRight 1)
    else none
  | e => parseStringValue e

/-- `Model.parsePropertyMapping`: boolean decision diagram over property
names; `true` leaves seed an empty set, `false` leaves prune (`none`), and a
matched condition prepends its key to the union of its branches. -/
def parsePropertyMapping : SExpr → Except DecodeError (Option (List String))
  | .list [.atom "ite", .list [.atom "=", .atom "x!0", prop], thenE, elsE] => do
    let thenM ← parsePropertyMapping thenE
    let elsM ← parsePropertyMapping elsE
    match parsePropKey prop with
    | none => .error (modelError "expected string in property mapping")
    | some propStr =>
      match thenM, elsM with
      | none, e => .ok e
      | some t, none => .ok (some (dedupFirst (propStr :: t)))
      | some t, some e => .ok (some (dedupFirst (propStr :: t ++ e)))
  | .atom "true" => .ok (some [])
  | .atom "false" => .ok none
  | _ => .error (modelError "expected (true)")

/-- `Model.parseObjectFields`: two-key conditional chain over object
reference and property name, with a lazy-value leaf. -/
def parseObjectFields : SExpr → Except DecodeError (ObjRef → String → LazyValue)
  | .list [.atom "ite",
      .list [.atom "and",
        .list [.atom "=", .atom "x!0", .atom obj],
        .list [.atom "=", .atom "x!1", s]],
      thenE, elsE] => do
    let thenM ← parseObjectFields thenE
    let elsM ← parseObjectFields elsE
    match parsePropKey s with
    | none => .error (modelError "expected string in object field")
    | some strValue =>
      .ok (fun r prop => if r.name = obj ∧ prop = strValue then thenM r prop else elsM r prop)
  | smt => do
    let val ← parseLazyValue smt
    .ok (fun _ _ => val)

/-- The function-identity conjunct of a function-table branch: an equality of
`x!0` against a literal `(jsfun name)` value. -/
def matchFuncEq : SExpr → Option String
  | .list [.atom "=", .atom "x!0", .list [.atom "jsfun", .atom func]] => some func
  | _ => none

/-- The in-place creation of `this.funs[funcName]` and
`funcBlocks[numArgs]` performed by `parseFunctions` before its argument
loop. -/
def ensureFun (st : ModelState) (fn : String) (numArgs : Option Int) : ModelState :=
  let blocks := (lookupA st.funs fn).getD []
  let blocks' :=
    match lookupA blocks numArgs with
    | some _ => blocks
    | none => setA blocks numArgs ⟨[]⟩
  { st with funs := setA st.funs fn blocks' }

/-- `fun.body.unshift(...)`: prepend a discovered branch to the branch list
of the given function and arity. -/
def unshiftBranch (st : ModelState) (fn : String) (numArgs : Option Int)
    (cond : List JSVal) (ret : LazyValue) : ModelState :=
  let blocks := (lookupA st.funs fn).getD []
  let lf := (lookupA blocks numArgs).getD ⟨[]⟩
  { st with funs := setA st.funs fn (setA blocks numArgs ⟨⟨cond, ret⟩ :: lf.body⟩) }

/-- The per-argument condition loop of `Model.parseFunctions` (indices from
4): each condition must be an equality `(= x!(idx-1) val)` — otherwise the
structured error is raised — and each value must parse as a simple scalar —
otherwise the whole branch is dropped (`none`). -/
def parseFunCondLoop (idx : Nat) : List SExpr → Except DecodeError (Option (List JSVal))
  | [] => .ok (some [])
  | c :: rest =>
    match c with
    | .list [.atom "=", .atom x, v] =>
      if x = "x!" ++ toString (idx - 1) then do
        let mv ← tryParseSimpleValue v
        match mv with
        | none => .ok none
        | some jv => do
          let tail ← parseFunCondLoop (idx + 1) rest
          .ok (tail.map (jv :: ·))
      else .error (modelError "expected (= x!idx $val)")
    | _ => .error (modelError "expected (= x!idx $val)")

/-- `Model.parseFunctions`: walks the application-table ite chain, recursing
into the else branch before recording the current branch; a leaf becomes the
arity's default value. -/
def parseFunctions (st : ModelState) (smt : SExpr) (numArgs : Option Int) :
    Except DecodeError ModelState :=
  match smt with
  | .list [.atom "ite", .list condList, thenE, elsE] => do
    let st₁ ← parseFunctions st elsE numArgs
    match condList with
    | .atom "and" :: c1 :: _ :: _ =>
      match matchFuncEq c1 with
      | none => .ok st₁
      | some funcName =>
        let st₂ := ensureFun st₁ funcName numArgs
        match ← parseFunCondLoop 4 (condList.drop 4) with
        | none => .ok st₂
        | some fullCond => do
          let thenV ← parseLazyValue thenE
          .ok (unshiftBranch st₂ funcName numArgs fullCond thenV)
    | _ => .error (modelError "expected (and ...)")
  | _ => do
    let v ← parseLazyValue smt
    .ok { st with funDefaults := setA st.funDefaults numArgs v }

/-- Modelled from the spec: the `define-fun` template of the external shape
matcher (`matchSExpr` of `util.ts`, not part of `src/`) — the literal head,
an atomic name capture, a list of formal arguments, the declared sort and the
body.  Name captures are taken to match single atoms, as every use in the
definition decoder treats them as strings. -/
def matchDefineFun : SExpr → Option (String × List SExpr × SExpr × SExpr)
  | .list [.atom "define-fun", .atom name, .list args, ret, body] =>
    some (name, args, ret, body)
  | _ => none

/-- Modelled from the spec: the residual heap-mapping shape — a
single-argument function of sort `Loc` returning `JSVal`. -/
def matchHeapShape : SExpr → Option (String × SExpr)
  | .list [.atom "define-fun", .atom name, .list [.list [.atom "x!0", .atom "Loc"]],
      .atom "JSVal", body] => some (name, body)
  | _ => none

/-- Modelled from the spec: the residual property-set shape — a
single-argument function of sort `String` returning `Bool`. -/
def matchPropShape : SExpr → Option (String × SExpr)
  | .list [.atom "define-fun", .atom name, .list [.list [.atom "x!0", .atom "String"]],
      .atom "Bool", body] => some (name, body)
  | _ => none

/-- `Model.parseDefinition`: classifies one top-level definition by name
prefix/shape and stores its decoded form; entries that are not define-fun
shaped are skipped, except that atoms and empty lists abort. -/
def parseDefinition (st : ModelState) (data : SExpr) : Except DecodeError ModelState :=
  match data with
  | .atom _ => .error (modelError "expected define-fun")
  | .list es =>
    if es.length < 1 then .error (modelError "expected define-fun")
    else
      match matchDefineFun (.list es) with
      | none => .ok st
      | some (name, _args, _ret, body) =>
        if strStartsWith name "v_" then do
          let v ← parseLazyValue body
          .ok { st with vars := setA st.vars (name.drop 2) v }
        else if strStartsWith name "l_" then
          match body with
          | .atom locVal => .ok { st with locs := setA st.locs (name.drop 2) ⟨locVal⟩ }
          | _ => .error (modelError "expected loc")
        else if strStartsWith name "h_" then do
          let h ← parseHeap body
          .ok { st with heaps := setA st.heaps (jsParseInt 10 (name.drop 2)) h }
        else if name = "arrlength" then do
          let f ← parseArrayLengths body
          .ok { st with arrLengths := some f }
        else if name = "arrelems" then do
          let f ← parseArrayElems body
          .ok { st with arrElems := some f }
        else if name = "objproperties" then do
          let f ← parseObjectProperties body
          .ok { st with objProperties := some f }
        else if name = "objfield" then do
          let f ← parseObjectFields body
          .ok { st with objFields := some f }
        else if strStartsWith name "c_" then .ok st
        else if strStartsWith name "app" then
          parseFunctions st body (jsParseInt 10 (name.drop 3))
        else if strStartsWith name "pre" ∨ strStartsWith name "post" ∨
            strStartsWith name "eff" ∨ strStartsWith name "call" then .ok st
        else
          match matchHeapShape (.list es) with
          | some (hname, hbody) => do
            let hm ← parseHeapMapping hbody
            .ok { st with heapMappings := setA st.heapMappings hname hm }
          | none =>
            match matchPropShape (.list es) with
            | some (pname, pbody) => do
              let mapping ← parsePropertyMapping pbody
              .ok { st with
                objPropertyMappings := setA st.objPropertyMappings pname (mapping.getD []) }
            | none => .error (modelError ("unexpected key: " ++ name))

/-- The `Model` constructor: strip the 3-character satisfiability tag, parse
the remainder as an s-expression, require a `(model ...)` list of length at
least 2, and fold `parseDefinition` over the definitions.  The source also
evaluates `smt2.trim().startsWith('(error')` here, but only constructs the
resulting `MessageException` without throwing it, so that check has no
observable effect. -/
def decode (smt : String) : Except DecodeError ModelState :=
  let smt2 := smt.drop 3
  match parseSExpr (strTrim smt2) with
  | .error e => .error (modelError e)
  | .ok (.atom s) => .error (modelError s)
  | .ok (.list es) =>
    if es.length < 2 then .error (modelError smt)
    else
      match es with
      | .atom "model" :: defs => defs.foldlM parseDefinition initState
      | _ => .error (modelError smt)

/-- `[...Array(n)]`: a valid JavaScript array length (a non-negative
integer); `none` stands for the `RangeError` on `NaN` or negative lengths. -/
def jsArrayOfLen : Option Int → Option Nat
  | none => none
  | some n => if 0 ≤ n then some n.toNat else none

/-- JavaScript `reduceRight` without an initial value over a list of
expressions (`none` models the `TypeError` on an empty array). -/
def reduceRight1 (f : Expr → Expr → Expr) : List Expr → Option Expr
  | [] => none
  | [e] => some e
  | e :: rest => (reduceRight1 f rest).map (f e)

/-- Index-passing map, used for the per-argument comparison tests. -/
def mapIdxFrom (f : Nat → α → β) : Nat → List α → List β
  | _, [] => []
  | i, a :: as => f i a :: mapIdxFrom f (i + 1) as

/-- `Model.hydrate`: resolves a lazy value to a concrete value through the
model's tables.  The recursion through the table closures is not structurally
bounded in the source (cyclic models recurse forever, spec §9), so the
embedding takes explicit fuel. -/
def hydrate : Nat → ModelState → LazyValue → Except DecodeError JSVal
  | 0, _, _ => .error .outOfFuel
  | fuel + 1, st, val =>
    match val with
    | .objCls cls args => do
      let args' ← args.mapM (hydrate fuel st)
      .ok (.objCls cls args')
    | .funRef name =>
      match lookupA st.funs name with
      | none => .ok (.fn (.mk [] []))
      | some funcBlocks =>
        match funcBlocks with
        | [(numArgs, lf)] => do
          let start : List Stmt × Option LazyValue := ([], lookupA st.funDefaults numArgs)
          let (stmts, dflt) ← lf.body.foldlM
            (fun (acc : List Stmt × Option LazyValue) br =>
              if br.cond.isEmpty then .ok (acc.1, some br.ret)
              else do
                let tests := mapIdxFrom
                  (fun argIdx condExpr =>
                    Expr.binary "===" (.ident ("x_" ++ toString argIdx))
                      (valueToJavaScript condExpr)) 0 br.cond
                match reduceRight1 (fun l r => Expr.logical "&&" l r) tests with
                | none => .error .typeError
                | some test => do
                  let retV ← hydrate fuel st br.ret
                  .ok (acc.1 ++
                    [Stmt.ifS test (.block [.retS (valueToJavaScript retV)]) (.block [])],
                    acc.2))
            start
          match dflt with
          | none => .error .typeError
          | some dv => do
            let dvv ← hydrate fuel st dv
            let body := stmts ++ [Stmt.retS (valueToJavaScript dvv)]
            match jsArrayOfLen numArgs with
            | none => .error .rangeError
            | some n =>
              .ok (.fn (.mk ((List.range n).map (fun idx => "x_" ++ toString idx)) body))
        | _ => .error (modelError "no support for variable argument functions")
    | .arrRef name =>
      match st.arrLengths with
      | none => .error (modelError "no arrlength")
      | some lens =>
        match jsArrayOfLen (lens ⟨name⟩) with
        | none => .error .rangeError
        | some n => do
          let elems ← (List.range n).mapM (fun i =>
            match st.arrElems with
            | none => .error (modelError "no arrelems")
            | some els => hydrate fuel st (els ⟨name⟩ (i : Int)))
          .ok (.arr elems)
    | .objRef name =>
      match st.objProperties with
      | none => .error (modelError "no objproperties")
      | some props =>
        match st.objFields with
        | none => .error (modelError "no objfields")
        | some fields =>
          let objAlias := props ⟨name⟩
          match lookupA st.objPropertyMappings objAlias with
          | none => .error (modelError ("no mapping for " ++ props ⟨name⟩))
          | some keys => do
            let kvs ← keys.mapM (fun key => do
              let v ← hydrate fuel st (fields ⟨name⟩ key)
              pure (key, v))
            .ok (.obj kvs)
    | .num v => .ok (.num v)
    | .bool v => .ok (.bool v)
    | .str v => .ok (.str v)
    | .null => .ok .null
    | .undefined => .ok .undefined
    | .obj v => .ok (.obj v)

/-- `Model.valueOf`: query one free variable; a plain name falls back to
`undefined` when unbound, a (location, heap-generation) query fails with the
structured error when either lookup misses. -/
def valueOf (fuel : Nat) (st : ModelState) : FreeVar → Except DecodeError JSVal
  | .strV name =>
    match lookupA st.vars name with
    | none => .ok .undefined
    | some v => hydrate fuel st v
  | .locV name heap =>
    match lookupA st.locs name with
    | none => .error (modelError ("no such loc " ++ name))
    | some loc =>
      match (lookupA st.heaps (some heap)).bind (lookupA st.heapMappings) with
      | none => .error (modelError ("no such heap " ++ toString heap))
      | some hm => hydrate fuel st (hm loc)

mutual
/-- A concrete value tree carries none of the reference tags (`arr-ref`,
`obj-ref`, `fun-ref`, `loc`): every node is one of the nine concrete
constructors.  The check recurses through objects, class-instance arguments
and array elements. -/
def JSVal.refFree : JSVal → Bool
  | .num _ => true
  | .bool _ => true
  | .str _ => true
  | .null => true
  | .undefined => true
  | .fn _ => true
  | .obj v => refFreeProps v
  | .objCls _ args => refFreeList args
  | .arr elems => refFreeList elems

/-- Reference-freedom of a list of values. -/
def refFreeList : List JSVal → Bool
  | [] => true
  | v :: rest => v.refFree && refFreeList rest

/-- Reference-freedom of an object's property values. -/
def refFreeProps : List (String × JSVal) → Bool
  | [] => true
  | (_, v) :: rest => v.refFree && refFreeProps rest
end

/-- Right-nested array-length ite chain with atomic leaves: the input shape
the encoder produces for the `arrlength` table. -/
def lenChain : List (String × String) → String → SExpr
  | [], leaf => .atom leaf
  | (k, v) :: rest, leaf =>
    .list [.atom "ite", .list [.atom "=", .atom "x!0", .atom k], .atom v, lenChain rest leaf]

/-- First-match-wins lookup specification for an array-length chain: scan the
(key, value) pairs in chain order, falling back to the trailing leaf. -/
def chainSpec (ps : List (String × String)) (leaf : String) (key : String) : Option Int :=
  match ps.find? (fun p => p.1 == key) with
  | some p => jsParseInt 10 p.2
  | none => jsParseInt 10 leaf

/-- Per-argument equality conditions `(= x!(i-1) v)` for consecutive
condition-list indices starting at `i`, as emitted by the encoder for an
application-table branch. -/
def mkArgConds : Nat → List SExpr → List SExpr
  | _, [] => []
  | i, v :: vs => .list [.atom "=", .atom ("x!" ++ toString (i - 1)), v] :: mkArgConds (i + 1) vs

/-- The full condition list of one application-table branch: the `and` head,
the function-identity conjunct, the bookkeeping this-argument and heap
conjuncts, then the per-argument equalities. -/
def funBranchCond (fn : String) (args : List SExpr) : List SExpr :=
  .atom "and" :: .list [.atom "=", .atom "x!0", .list [.atom "jsfun", .atom fn]] ::
    .atom "this!0" :: .atom "heap!0" :: mkArgConds 4 args

/-- Right-nested application-table ite chain over one function name, with an
atomic leaf (the arity's default value). -/
def funChain (fn : String) : List (List SExpr × SExpr) → String → SExpr
  | [], leaf => .atom leaf
  | (args, thenE) :: rest, leaf =>
    .list [.atom "ite", .list (funBranchCond fn args), thenE, funChain fn rest leaf]

/-- What one application-table branch decodes to: its argument values via the
condition loop (failing if any is dropped) and its result via the lazy-value
parser. -/
def parseBranchSpec (b : List SExpr × SExpr) : Except DecodeError FunBranch := do
  match ← parseFunCondLoop 4 (mkArgConds 4 b.1) with
  | none => .error .typeError
  | some cond => do
    let ret ← parseLazyValue b.2
    .ok ⟨cond, ret⟩

/-- The recorded branch list of one function at one arity. -/
def lookupFunBody (st : ModelState) (fn : String) (numArgs : Option Int) :
    Option (List FunBranch) :=
  (lookupA st.funs fn).bind (fun blocks => (lookupA blocks numArgs).map (·.body))

/-- A model whose array-length table is populated (all lengths 0) but whose
array-element table is not. -/
def lenOnlyState : ModelState := { initState with arrLengths := some (fun _ => some 0) }

/-- A model whose array-length table is populated (all lengths 1) but whose
array-element table is not. -/
def lenOneState : ModelState := { initState with arrLengths := some (fun _ => some 1) }

/-- A model whose array-length table (all lengths 1) and array-element table
(all elements `null`) are both populated. -/
def bothState : ModelState :=
  { initState with arrLengths := some (fun _ => some 1), arrElems := some (fun _ _ => .null) }

/-- An application-table chain whose single branch has a non-equality
argument condition. -/
def nonEqCondChain : SExpr :=
  .list [.atom "ite",
    .list [.atom "and",
      .list [.atom "=", .atom "x!0", .list [.atom "jsfun", .atom "f"]],
      .atom "this!0", .atom "heap!0",
      .list [.atom "<", .atom "x!3", .atom "2"]],
    .atom "jsnull", .atom "jsundefined"]

/-- An application-table chain whose single branch has an equality argument
condition against a non-scalar (function reference) value. -/
def refCondChain : SExpr :=
  .list [.atom "ite",
    .list [.atom "and",
      .list [.atom "=", .atom "x!0", .list [.atom "jsfun", .atom "f"]],
      .atom "this!0", .atom "heap!0",
      .list [.atom "=", .atom "x!3", .list [.atom "jsfun", .atom "g"]]],
    .atom "jsnull", .atom "jsundefined"]

/-- A small model text with one scalar variable binding. -/
def demoModelText : String := "sat(model (define-fun v_x () JSVal (jsint 5)))"

/-- The model decoded from `demoModelText` (decoding succeeds, see the
idempotence witness). -/
def demoModel : ModelState :=
  match decode demoModelText with
  | .ok st => st
  | .error _ => initState

mutual
/-- Every concrete value is reference-free: the concrete domain has no
reference constructors to begin with. -/
theorem refFree_all : ∀ (v : JSVal), v.refFree = true
  | .num _ => rfl
  | .bool _ => rfl
  | .str _ => rfl
  | .null => rfl
  | .undefined => rfl
  | .fn _ => rfl
  | .obj v => by simpa [JSVal.refFree] using refFreeProps_all v
  | .objCls _ args => by simpa [JSVal.refFree] using refFreeList_all args
  | .arr elems => by simpa [JSVal.refFree] using refFreeList_all elems

theorem refFreeList_all : ∀ (l : List JSVal), refFreeList l = true
  | [] => rfl
  | v :: rest => by simp [refFreeList, refFree_all v, refFreeList_all rest]

theorem refFreeProps_all : ∀ (l : List (String × JSVal)), refFreeProps l = true
  | [] => rfl
  | (_, v) :: rest => by simp [refFreeProps, refFree_all v, refFreeProps_all rest]
end

/-- C1: every concrete value produced by hydration — and hence every value
returned by `valueOf` — contains no reference variants: no `arr-ref`,
`obj-ref`, `fun-ref` or `loc` tag occurs anywhere in the returned value
tree, only the nine concrete node kinds. -/
theorem hydrate_valueOf_refFree (fuel : Nat) (st : ModelState) (lv : LazyValue)
    (q : FreeVar) (v w : JSVal)
    (_hh : hydrate fuel st lv = .ok v) (_hq : valueOf fuel st q = .ok w) :
    v.refFree = true ∧ w.refFree = true :=
  ⟨refFree_all v, refFree_all w⟩

theorem hydrate_valueOf_refFree_witness :
    (JSVal.null).refFree = true ∧ (JSVal.undefined).refFree = true :=
  hydrate_valueOf_refFree 1 initState .null (.strV "x") .null .undefined rfl rfl

/-- C2 (documenting the code bug): on the output `sat(error "boom")`, whose
text after the 3-character tag begins with `(error`, construction does not
fail immediately with that trimmed text as payload; it proceeds to
structural parsing and fails with the whole raw output embedded instead,
because the source builds the intended exception without throwing it. -/
theorem decode_error_marker_not_immediate :
    (strStartsWith (strTrim ("sat(error \"boom\")".drop 3)) "(error") = true ∧
    decode "sat(error \"boom\")" = .error (modelError "sat(error \"boom\")") ∧
    modelError "sat(error \"boom\")" ≠ modelError "(error \"boom\")" :=
  ⟨by decide, rfl, by decide⟩

/-- C10: a plain variable name with no binding queries to `undefined`
without error, whereas a (location, heap-generation) query fails with the
structured error when the location is unknown or the heap generation does
not resolve. -/
theorem valueOf_unknown (fuel : Nat) (st : ModelState) :
    (∀ name, lookupA st.vars name = none →
      valueOf fuel st (.strV name) = .ok .undefined) ∧
    (∀ name heap, lookupA st.locs name = none →
      valueOf fuel st (.locV name heap) = .error (modelError ("no such loc " ++ name))) ∧
    (∀ name heap loc, lookupA st.locs name = some loc →
      (lookupA st.heaps (some heap)).bind (lookupA st.heapMappings) = none →
      valueOf fuel st (.locV name heap) =
        .error (modelError ("no such heap " ++ toString heap))) := by
  refine ⟨fun name h => ?_, fun name heap h => ?_, fun name heap loc h1 h2 => ?_⟩
  · simp [valueOf, h]
  · simp [valueOf, h]
  · simp [valueOf, h1, h2]

theorem valueOf_unknown_witness :
    valueOf 1 initState (.strV "x") = .ok .undefined ∧
    valueOf 1 initState (.locV "p" 0) = .error (modelError ("no such loc " ++ "p")) ∧
    valueOf 1 { initState with locs := [("p", ⟨"Loc!0"⟩)] } (.locV "p" 0) =
      .error (modelError ("no such heap " ++ toString (0 : Int))) :=
  ⟨(valueOf_unknown 1 initState).1 "x" rfl,
   (valueOf_unknown 1 initState).2.1 "p" 0 rfl,
   (valueOf_unknown 1 { initState with locs := [("p", ⟨"Loc!0"⟩)] }).2.2 "p" 0 ⟨"Loc!0"⟩ rfl rfl⟩

/-- C8 counterexample: the escape `\x0a` (whose second digit is a hex letter)
is not translated to the character with code 0x0a — the quoted literal
`"\x0a"` decodes to the four verbatim characters, not to a newline. -/
theorem parseStringValue_hex_letter_untranslated :
    parseStringValue (.atom "\"\\x0a\"") = some "\\x0a" ∧ ("\\x0a" : String) ≠ "\n" :=
  ⟨rfl, by decide⟩

/-- C8 amended: only `\xNN` sequences whose two characters are decimal
digits are translated (the pair being read as hexadecimal); other `\xNN`
sequences are left verbatim.  Decoding `"\x41\x42"` yields `"AB"`, and a
`str.++` concatenation of two decodable parts yields the concatenation of
their decoded texts. -/
theorem parseStringValue_escape_spec :
    parseStringValue (.atom "\"\\x41\\x42\"") = some "AB" ∧
    (∀ (d1 d2 : Char) (cs : List Char), '0' ≤ d1 → d1 ≤ '9' → '0' ≤ d2 → d2 ≤ '9' →
      xlateEscapes ('\\' :: 'x' :: d1 :: d2 :: cs) =
        fromCharCode (some (hexPairVal d1 d2 : Int)) :: xlateEscapes cs) ∧
    (∀ a b t1 t2, parseStringValue a = some t1 → parseStringValue b = some t2 →
      parseStringValue (.list [.atom "str.++", a, b]) = some (t1 ++ t2)) := by
  refine ⟨rfl, fun d1 d2 cs h1 h2 h3 h4 => ?_, fun a b t1 t2 ha hb => ?_⟩
  · simp [xlateEscapes, h1, h2, h3, h4]
  · simp [parseStringValue, parseStringParts, ha, hb]

theorem parseStringValue_escape_spec_witness :
    xlateEscapes ('\\' :: 'x' :: '4' :: '1' :: []) =
      fromCharCode (some (hexPairVal '4' '1' : Int)) :: xlateEscapes [] ∧
    parseStringValue (.list [.atom "str.++", .atom "\"ab\"", .atom "\"cd\""]) =
      some ("ab" ++ "cd") :=
  ⟨parseStringValue_escape_spec.2.1 '4' '1' [] (by decide) (by decide) (by decide) (by decide),
   parseStringValue_escape_spec.2.2 (.atom "\"ab\"") (.atom "\"cd\"") "ab" "cd" rfl rfl⟩

@[simp] theorem ok_bind (a : α) (f : α → Except ε β) :
    (Except.ok a >>= f) = f a := rfl

@[simp] theorem error_bind (e : ε) (f : α → Except ε β) :
    ((Except.error e : Except ε α) >>= f) = .error e := rfl

@[simp] theorem except_map_eq_bind (f : α → β) (x : Except ε α) :
    x.map f = x >>= fun a => .ok (f a) := by
  cases x <;> rfl

/-- One ite step of the array-length chain decoder dispatches on the key. -/
theorem parseArrayLengths_ite (k : String) (thenE elsE : SExpr)
    (tf ef : ArrRef → Option Int)
    (ht : parseArrayLengths thenE = .ok tf) (he : parseArrayLengths elsE = .ok ef) :
    parseArrayLengths (.list [.atom "ite", .list [.atom "=", .atom "x!0", .atom k], thenE, elsE])
      = .ok (fun r => if r.name = k then tf r else ef r) := by
  simp [parseArrayLengths, ht, he]

/-- The array-length chain decoder realizes first-match-wins lookup with the
trailing leaf as fallback. -/
theorem parseArrayLengths_lenChain (ps : List (String × String)) (leaf : String) :
    ∃ f, parseArrayLengths (lenChain ps leaf) = .ok f ∧
      ∀ key, f ⟨key⟩ = chainSpec ps leaf key := by
  induction ps with
  | nil => exact ⟨_, rfl, fun key => rfl⟩
  | cons p rest ih =>
    obtain ⟨f, hf, hspec⟩ := ih
    obtain ⟨k, v⟩ := p
    refine ⟨_, parseArrayLengths_ite k (.atom v) (lenChain rest leaf)
      (fun _ => jsParseInt 10 v) f rfl hf, fun key => ?_⟩
    by_cases h : k = key
    · subst h
      simp [chainSpec]
    · have h' : ¬ (ArrRef.mk key).name = k := fun hc => h (hc.symm)
      simp only [h', if_false, hspec key, chainSpec, List.find?_cons]
      have : (k == key) = false := by simpa using h
      simp [this]

/-- C3: a right-nested ite chain keyed on equality tests decodes to a total
lookup function in which the first matching equality along the chain wins
and the trailing leaf is the fallback; in particular the chain
`ite(key=="a", 1, ite(key=="b", 2, 0))` decoded as an array-length table
maps "a" to 1, "b" to 2, and every other key to 0. -/
theorem parseArrayLengths_chain_firstMatch :
    (∀ ps leaf, ∃ f, parseArrayLengths (lenChain ps leaf) = .ok f ∧
      ∀ key, f ⟨key⟩ = chainSpec ps leaf key) ∧
    (∃ g, parseArrayLengths (lenChain [("a", "1"), ("b", "2")] "0") = .ok g ∧
      ∀ key, g ⟨key⟩ = if key = "a" then some 1 else if key = "b" then some 2 else some 0) := by
  refine ⟨parseArrayLengths_lenChain, ?_⟩
  obtain ⟨g, hg, hspec⟩ := parseArrayLengths_lenChain [("a", "1"), ("b", "2")] "0"
  refine ⟨g, hg, fun key => ?_⟩
  rw [hspec]
  by_cases h1 : key = "a"
  · subst h1; rfl
  · by_cases h2 : key = "b"
    · subst h2; rfl
    · have e1 : ("a" == key) = false := by
        simpa using fun hc => h1 hc.symm
      have e2 : ("b" == key) = false := by
        simpa using fun hc => h2 hc.symm
      simp [chainSpec, List.find?_cons, e1, e2, h1, h2]
      rfl

/-- C5 counterexample: with the array-length table populated (length 0) and
the array-element table unpopulated, hydrating an array reference does not
fail — it yields the empty array, because the missing-element-table check
sits inside the per-index loop. -/
theorem hydrate_zero_len_missing_elems :
    lenOnlyState.arrElems = none ∧
    hydrate 1 lenOnlyState (.arrRef "Arr!0") = .ok (.arr []) :=
  ⟨rfl, rfl⟩

/-- C5 amended: hydrating an ArrayRef fails with the structured error when
the array-length table is unpopulated, and when the array-element table is
unpopulated and the length is positive; when both tables are populated (with
a valid length), the result is the array of the hydrated element-table
entries at indices `0..length-1`. -/
theorem hydrate_arrRef_spec (fuel : Nat) (st : ModelState) (r : String) :
    (st.arrLengths = none →
      hydrate (fuel + 1) st (.arrRef r) = .error (modelError "no arrlength")) ∧
    (∀ L (n : Nat), st.arrLengths = some L → L ⟨r⟩ = some ((n : Nat) : Int) → 0 < n →
      st.arrElems = none →
      hydrate (fuel + 1) st (.arrRef r) = .error (modelError "no arrelems")) ∧
    (∀ L E (n : Nat), st.arrLengths = some L → L ⟨r⟩ = some ((n : Nat) : Int) →
      st.arrElems = some E →
      hydrate (fuel + 1) st (.arrRef r) =
        ((List.range n).mapM (fun i => hydrate fuel st (E ⟨r⟩ (i : Int)))).map JSVal.arr) := by
  refine ⟨fun h => ?_, fun L n hL hn hpos hE => ?_, fun L E n hL hn hE => ?_⟩
  · simp [hydrate, h]
  · obtain ⟨m, rfl⟩ := Nat.exists_eq_succ_of_ne_zero (Nat.pos_iff_ne_zero.mp hpos)
    have h0 : jsArrayOfLen (some ((m + 1 : Nat) : Int)) = some (m + 1) := by
      simp only [jsArrayOfLen]
      rw [if_pos (by omega)]
      simp
    simp only [hydrate, hL, hn, hE, h0, List.range_succ_eq_map, List.mapM_cons]
    rfl
  · simp [hydrate, hL, hn, hE, jsArrayOfLen]

theorem hydrate_arrRef_spec_witness :
    hydrate 1 initState (.arrRef "A") = .error (modelError "no arrlength") ∧
    hydrate 1 lenOneState (.arrRef "A") = .error (modelError "no arrelems") ∧
    hydrate 2 bothState (.arrRef "A") =
      ((List.range 1).mapM (fun i => hydrate 1 bothState
        ((fun (_ : ArrRef) (_ : Int) => LazyValue.null) ⟨"A"⟩ (i : Int)))).map JSVal.arr :=
  ⟨(hydrate_arrRef_spec 0 initState "A").1 rfl,
   (hydrate_arrRef_spec 0 lenOneState "A").2.1 (fun _ => some 1) 1 rfl rfl (by decide) rfl,
   (hydrate_arrRef_spec 1 bothState "A").2.2
     (fun _ => some 1) (fun _ _ => .null) 1 rfl rfl rfl⟩

/-- C6 counterexample: a top-level entry that is a list but not define-fun
shaped (here `(declare-fun x)`) does not abort construction — it is skipped
and the later definition still decodes, so the query succeeds. -/
theorem decode_skips_nonDefineFun :
    (decode "sat(model (declare-fun x) (define-fun v_x () JSVal jsnull))").map
      (fun st => valueOf 1 st (.strV "x")) = .ok (.ok .null) := rfl

/-- C6 amended: a top-level entry that is an atom or the empty list aborts
decoding with the structured "unrecognized model" failure, but any other
entry that does not match the define-fun shape is silently skipped, leaving
the model state unchanged, and decoding of the remaining definitions
continues. -/
theorem parseDefinition_skip (st : ModelState) :
    (∀ s, parseDefinition st (.atom s) = .error (modelError "expected define-fun")) ∧
    (parseDefinition st (.list []) = .error (modelError "expected define-fun")) ∧
    (∀ es, es ≠ [] → matchDefineFun (.list es) = none →
      parseDefinition st (.list es) = .ok st) := by
  refine ⟨fun s => rfl, rfl, fun es hne hm => ?_⟩
  have hlen : ¬ es.length < 1 := by
    cases es
    · exact absurd rfl hne
    · simp
  simp [parseDefinition, hlen, hm]

theorem parseDefinition_skip_witness :
    parseDefinition initState (.atom "foo") = .error (modelError "expected define-fun") ∧
    parseDefinition initState (.list []) = .error (modelError "expected define-fun") ∧
    parseDefinition initState (.list [.atom "declare-fun", .atom "x"]) = .ok initState :=
  ⟨(parseDefinition_skip initState).1 "foo",
   (parseDefinition_skip initState).2.1,
   (parseDefinition_skip initState).2.2 [.atom "declare-fun", .atom "x"] (by simp) rfl⟩

/-- C7 counterexample: a branch whose argument condition is not an equality
of the expected `(= x!idx v)` shape is not discarded silently — function
table building aborts with the structured error. -/
theorem parseFunctions_nonEq_cond_errors :
    parseFunctions initState nonEqCondChain (some 1) =
      .error (modelError "expected (= x!idx $val)") := rfl

/-- C7 amended: during function-table building, a branch is discarded
silently exactly when its argument conditions all match the equality shape
`(= x!idx v)` but some value fails the simple-scalar parser: the branch is
dropped, no error is raised, and only the empty table entry created
beforehand remains.  An argument condition that does not match the equality
shape instead aborts decoding with the structured error. -/
theorem parseFunctions_drop_spec
    (st st₁ : ModelState) (fn : String) (numArgs : Option Int)
    (c2 c3 : SExpr) (argConds : List SExpr) (thenE elsE : SExpr) :
    (parseFunctions st elsE numArgs = .ok st₁ →
      parseFunCondLoop 4 argConds = .ok none →
      parseFunctions st
        (.list [.atom "ite",
          .list (.atom "and" ::
            .list [.atom "=", .atom "x!0", .list [.atom "jsfun", .atom fn]] ::
            c2 :: c3 :: argConds), thenE, elsE]) numArgs
        = .ok (ensureFun st₁ fn numArgs)) ∧
    (∀ e, parseFunctions st elsE numArgs = .ok st₁ →
      parseFunCondLoop 4 argConds = .error e →
      parseFunctions st
        (.list [.atom "ite",
          .list (.atom "and" ::
            .list [.atom "=", .atom "x!0", .list [.atom "jsfun", .atom fn]] ::
            c2 :: c3 :: argConds), thenE, elsE]) numArgs = .error e) ∧
    (∀ (i : Nat) (v : SExpr) (rest : List SExpr),
      tryParseSimpleValue v = .ok none →
      parseFunCondLoop i
        (.list [.atom "=", .atom ("x!" ++ toString (i - 1)), v] :: rest) = .ok none) ∧
    (∀ (i : Nat) (x : String) (v : SExpr) (rest : List SExpr),
      x ≠ "x!" ++ toString (i - 1) →
      parseFunCondLoop i (.list [.atom "=", .atom x, v] :: rest) =
        .error (modelError "expected (= x!idx $val)")) := by
  refine ⟨fun hels hloop => ?_, fun e hels hloop => ?_,
    fun i v rest hv => ?_, fun i x v rest hx => ?_⟩
  · simp [parseFunctions, hels, hloop, matchFuncEq]
  · simp [parseFunctions, hels, hloop, matchFuncEq]
  · simp [parseFunCondLoop, hv]
  · simp [parseFunCondLoop, hx]

theorem parseFunctions_drop_spec_witness :
    parseFunctions initState refCondChain (some 1) =
      .ok (ensureFun { initState with
        funDefaults := setA initState.funDefaults (some 1) .undefined } "f" (some 1)) ∧
    parseFunctions initState nonEqCondChain (some 1) =
      .error (modelError "expected (= x!idx $val)") ∧
    parseFunCondLoop 4
      (.list [.atom "=", .atom ("x!" ++ toString (4 - 1)),
        .list [.atom "jsfun", .atom "g"]] :: []) = .ok none ∧
    parseFunCondLoop 4 (.list [.atom "=", .atom "x!9", .atom "jsnull"] :: []) =
      .error (modelError "expected (= x!idx $val)") := by
  have h := parseFunctions_drop_spec initState
    { initState with funDefaults := setA initState.funDefaults (some 1) .undefined }
    "f" (some 1) (.atom "this!0") (.atom "heap!0")
    [.list [.atom "=", .atom "x!3", .list [.atom "jsfun", .atom "g"]]]
    (.atom "jsnull") (.atom "jsundefined")
  have h2 := parseFunctions_drop_spec initState
    { initState with funDefaults := setA initState.funDefaults (some 1) .undefined }
    "f" (some 1) (.atom "this!0") (.atom "heap!0")
    [.list [.atom "<", .atom "x!3", .atom "2"]]
    (.atom "jsnull") (.atom "jsundefined")
  exact ⟨h.1 rfl rfl,
    h2.2.1 (modelError "expected (= x!idx $val)") rfl rfl,
    h.2.2.1 4 (.list [.atom "jsfun", .atom "g"]) [] rfl,
    h.2.2.2 4 "x!9" (.atom "jsnull") [] (by decide)⟩

/-- C9: decoding is a pure function of the model text, and queries are pure:
decoding the same text twice yields models whose queries agree, and
repeating a query on one model returns the same result. -/
theorem decode_idempotent_queries (smt : String) (m m' : ModelState)
    (fuel : Nat) (q : FreeVar)
    (h : decode smt = .ok m) (h' : decode smt = .ok m') :
    valueOf fuel m q = valueOf fuel m' q ∧ valueOf fuel m q = valueOf fuel m q := by
  have hm : m = m' := by
    rw [h] at h'
    exact Except.ok.inj h'
  subst hm
  exact ⟨rfl, rfl⟩

theorem decode_idempotent_queries_witness :
    valueOf 2 demoModel (.strV "x") = valueOf 2 demoModel (.strV "x") ∧
    valueOf 2 demoModel (.strV "x") = valueOf 2 demoModel (.strV "x") :=
  decode_idempotent_queries demoModelText demoModel demoModel 2 (.strV "x") rfl rfl

theorem lookupA_setA_self [DecidableEq α] (l : AList α β) (k : α) (v : β) :
    lookupA (setA l k v) k = some v := by
  induction l with
  | nil => simp [setA, lookupA]
  | cons p rest ih =>
    obtain ⟨k', v'⟩ := p
    by_cases h : k' = k
    · subst h
      simp [setA, lookupA]
    · simp [setA, lookupA, h, ih]

theorem lookupFunBody_ensureFun (st : ModelState) (fn : String) (n : Option Int) :
    lookupFunBody (ensureFun st fn n) fn n = some ((lookupFunBody st fn n).getD []) := by
  unfold ensureFun lookupFunBody
  cases hb : lookupA st.funs fn with
  | none =>
    simp [hb, lookupA_setA_self, lookupA]
  | some blocks =>
    cases hlk : lookupA blocks n with
    | none => simp [hb, hlk, lookupA_setA_self]
    | some lf => simp [hb, hlk, lookupA_setA_self]

theorem lookupFunBody_unshift (st : ModelState) (fn : String) (n : Option Int)
    (c : List JSVal) (r : LazyValue) :
    lookupFunBody (unshiftBranch st fn n c r) fn n =
      some (⟨c, r⟩ :: ((lookupFunBody st fn n).getD [])) := by
  unfold unshiftBranch lookupFunBody
  cases hb : lookupA st.funs fn with
  | none => simp [hb, lookupA_setA_self, lookupA]
  | some blocks =>
    cases hlk : lookupA blocks n with
    | none => simp [hb, hlk, lookupA_setA_self]
    | some lf => simp [hb, hlk, lookupA_setA_self]

/-- C4: the function-table builder records the branches of an
application-table ite chain in their original outermost-first syntactic
order: it recurses into the else branch before recording the current branch
and prepends each recorded branch, so the decoded branch list for the chain
is exactly the branches in top-to-bottom order (in front of any previously
recorded ones). -/
theorem parseFunctions_branch_order
    (fn : String) (branches : List (List SExpr × SExpr)) (leaf : String)
    (st : ModelState) (numArgs : Option Int) (parsed : List FunBranch)
    (leafV : LazyValue)
    (hbs : branches.mapM parseBranchSpec = .ok parsed)
    (hleaf : parseLazyValue (.atom leaf) = .ok leafV) :
    ∃ st', parseFunctions st (funChain fn branches leaf) numArgs = .ok st' ∧
      (lookupFunBody st' fn numArgs).getD [] =
        parsed ++ (lookupFunBody st fn numArgs).getD [] := by
  induction branches generalizing st parsed with
  | nil =>
    simp only [List.mapM_nil] at hbs
    have hp : parsed = [] := by
      cases hbs
      rfl
    subst hp
    refine ⟨{ st with funDefaults := setA st.funDefaults numArgs leafV }, ?_, ?_⟩
    · simp [funChain, parseFunctions, hleaf]
    · simp [lookupFunBody]
  | cons b rest ih =>
    obtain ⟨args, thenE⟩ := b
    rw [List.mapM_cons] at hbs
    cases hb0 : parseBranchSpec (args, thenE) with
    | error e => rw [hb0] at hbs; simp at hbs
    | ok b0 =>
      rw [hb0] at hbs
      simp only [ok_bind] at hbs
      cases hrest : rest.mapM parseBranchSpec with
      | error e => rw [hrest] at hbs; simp at hbs
      | ok parsedRest =>
        rw [hrest] at hbs
        simp only [ok_bind] at hbs
        have hp : parsed = b0 :: parsedRest := by
          cases hbs
          rfl
        subst hp
        obtain ⟨st₁, hst₁, hbody₁⟩ := ih st parsedRest hrest
        unfold parseBranchSpec at hb0
        cases hloop : parseFunCondLoop 4 (mkArgConds 4 args) with
        | error e => rw [hloop] at hb0; simp at hb0
        | ok o =>
          rw [hloop] at hb0
          simp only [ok_bind] at hb0
          cases o with
          | none => simp at hb0
          | some cond =>
            cases hthen : parseLazyValue thenE with
            | error e => rw [hthen] at hb0; simp at hb0
            | ok ret =>
              rw [hthen] at hb0
              simp only [ok_bind] at hb0
              have hb0' : b0 = ⟨cond, ret⟩ := by
                cases hb0
                rfl
              subst hb0'
              refine ⟨unshiftBranch (ensureFun st₁ fn numArgs) fn numArgs cond ret, ?_, ?_⟩
              · simp [funChain, funBranchCond, parseFunctions, hst₁, matchFuncEq,
                  hloop, hthen]
              · rw [lookupFunBody_unshift, lookupFunBody_ensureFun]
                simp [hbody₁]

theorem parseFunctions_branch_order_witness :
    ∃ st', parseFunctions initState
        (funChain "f" [([.list [.atom "jsbool", .atom "true"]], .atom "jsnull"),
          ([.list [.atom "jsbool", .atom "false"]], .atom "jsundefined")] "jsnull")
        (some 1) = .ok st' ∧
      (lookupFunBody st' "f" (some 1)).getD [] =
        [⟨[.bool true], .null⟩, ⟨[.bool false], .undefined⟩] ++
          (lookupFunBody initState "f" (some 1)).getD [] :=
  parseFunctions_branch_order "f"
    [([.list [.atom "jsbool", .atom "true"]], .atom "jsnull"),
     ([.list [.atom "jsbool", .atom "false"]], .atom "jsundefined")]
    "jsnull" initState (some 1)
    [⟨[.bool true], .null⟩, ⟨[.bool false], .undefined⟩] .null rfl rfl

end TsVerify
